import Mathlib

/-!
Verification development for the gvdb-rs GVDB container library.

Reader side (src/src/gvdb/hash.rs): the byte slice is modelled as `List Nat`
(each entry taken mod 256 at read time, matching `u8`), machine integers as
`Nat` with explicit `% 2^32` where overflow can occur, fallible operations as
`Except GvdbError _` or `Option _`.  Rust operations that can panic
(`unwrap`, unbounded recursion) are modelled with an explicit panic /
divergence outcome (`Option.none` at the outer layer, or the `panicked`
constructor), so that "returns normally" is a provable statement and not an
artifact of the embedding.

Writer side (src/gvdb/src/write/hash.rs): the `Rc`/`RefCell` bucket chains of
`SimpleHashTable` are modelled as plain lists, one list per bucket, with the
chain order of the list mirroring the next-link order of the source.
-/

set_option autoImplicit false

/-- Error kinds of `GvdbReaderError` (src/gvdb/src/read/error.rs), restricted
to the constructors reachable from the hash-table code.  Payloads that carry
host objects (`FromUtf8Error`, `std::io::Error`) are dropped. -/
inductive GvdbError where
  | utf8
  | dataOffset
  | dataAlignment
  | invalidData
  | dataError (msg : String)
  | keyError (key : List Nat)
  deriving Repr, DecidableEq

/-- `GvdbPointer`: a `(start, end)` pair of `u32` byte offsets. -/
structure GvdbPointer where
  start : Nat
  end_ : Nat
  deriving Repr, DecidableEq

/-- One byte of the data slice: entries are reduced mod 256 at read time so
that the model agrees with `u8` regardless of how the list was written down. -/
def byteAt (data : List Nat) (i : Nat) : Nat :=
  data.getD i 0 % 256

/-- Read a little-endian `u32` starting at `i`; `none` when the four bytes are
not all inside the slice (Rust `data.get(i..i + 4)` returning `None`). -/
def readU32LE (data : List Nat) (i : Nat) : Option Nat :=
  if i + 4 ≤ data.length then
    some (byteAt data i + 256 * byteAt data (i + 1) +
      65536 * byteAt data (i + 2) + 16777216 * byteAt data (i + 3))
  else
    none

/-- Read a little-endian `u16` starting at `i` (total; used only under a
bounds check, like the field reads inside a transmuted hash item). -/
def readU16LE (data : List Nat) (i : Nat) : Nat :=
  byteAt data i + 256 * byteAt data (i + 1)

/-- `data.get(s..e)` on a byte slice: `none` unless `s ≤ e ≤ data.length`. -/
def sliceOpt (data : List Nat) (s e : Nat) : Option (List Nat) :=
  if s ≤ e ∧ e ≤ data.length then
    some (((data.drop s).take (e - s)).map (· % 256))
  else
    none

/-- UTF-8 validity of a byte sequence, as checked by Rust's
`String::from_utf8` (RFC 3629: no overlong forms, no surrogates, maximum
scalar value 0x10FFFF). -/
def utf8Valid : List Nat → Bool
  | [] => true
  | b :: rest =>
    let b := b % 256
    if b < 0x80 then utf8Valid rest
    else if 0xC2 ≤ b && b ≤ 0xDF then
      match rest with
      | c :: rest2 =>
        let c := c % 256
        (0x80 ≤ c && c ≤ 0xBF) && utf8Valid rest2
      | [] => false
    else if b == 0xE0 then
      match rest with
      | c :: d :: rest2 =>
        let c := c % 256
        let d := d % 256
        (0xA0 ≤ c && c ≤ 0xBF) && (0x80 ≤ d && d ≤ 0xBF) && utf8Valid rest2
      | _ => false
    else if (0xE1 ≤ b && b ≤ 0xEC) || b == 0xEE || b == 0xEF then
      match rest with
      | c :: d :: rest2 =>
        let c := c % 256
        let d := d % 256
        (0x80 ≤ c && c ≤ 0xBF) && (0x80 ≤ d && d ≤ 0xBF) && utf8Valid rest2
      | _ => false
    else if b == 0xED then
      match rest with
      | c :: d :: rest2 =>
        let c := c % 256
        let d := d % 256
        (0x80 ≤ c && c ≤ 0x9F) && (0x80 ≤ d && d ≤ 0xBF) && utf8Valid rest2
      | _ => false
    else if b == 0xF0 then
      match rest with
      | c :: d :: e :: rest2 =>
        let c := c % 256
        let d := d % 256
        let e := e % 256
        (0x90 ≤ c && c ≤ 0xBF) && (0x80 ≤ d && d ≤ 0xBF) &&
          (0x80 ≤ e && e ≤ 0xBF) && utf8Valid rest2
      | _ => false
    else if 0xF1 ≤ b && b ≤ 0xF3 then
      match rest with
      | c :: d :: e :: rest2 =>
        let c := c % 256
        let d := d % 256
        let e := e % 256
        (0x80 ≤ c && c ≤ 0xBF) && (0x80 ≤ d && d ≤ 0xBF) &&
          (0x80 ≤ e && e ≤ 0xBF) && utf8Valid rest2
      | _ => false
    else if b == 0xF4 then
      match rest with
      | c :: d :: e :: rest2 =>
        let c := c % 256
        let d := d % 256
        let e := e % 256
        (0x80 ≤ c && c ≤ 0x8F) && (0x80 ≤ d && d ≤ 0xBF) &&
          (0x80 ≤ e && e ≤ 0xBF) && utf8Valid rest2
      | _ => false
    else false

/-- Modelled from the spec: `djb_hash` lives in `src/gvdb/util.rs`, which is
not among the provided sources.  Spec section 4.2: initial value 5381, for
each byte `b` compute `h = h * 33 + b` modulo `2^32`. -/
def djb_hash (key : List Nat) : Nat :=
  key.foldl (fun h b => (h * 33 + b % 256) % 4294967296) 5381

/-- `GvdbHashHeader`; the raw little-endian fields decoded to `Nat`. -/
structure GvdbHashHeader where
  n_bloom_words_raw : Nat
  n_buckets : Nat
  deriving Repr, DecidableEq

/-- `GvdbHashHeader::n_bloom_words`: only the low 27 bits are significant. -/
def GvdbHashHeader.n_bloom_words (h : GvdbHashHeader) : Nat :=
  h.n_bloom_words_raw &&& (2 ^ 27 - 1)

/-- `GvdbHashItem` (24 bytes on disk), fields decoded to `Nat`. -/
structure GvdbHashItem where
  hash_value : Nat
  parent : Nat
  key_start : Nat
  key_size : Nat
  typ : Nat
  unused : Nat
  value : GvdbPointer
  deriving Repr, DecidableEq

/-- Size in bytes of a serialized `GvdbHashItem`. -/
def sizeOfGvdbHashItem : Nat := 24

/-- `GvdbHashTable`: a byte slice together with the table pointer and the
decoded hash header. -/
structure GvdbHashTable where
  data : List Nat
  table_ptr : GvdbPointer
  header : GvdbHashHeader
  deriving Repr, DecidableEq

/-- `GvdbHashTable::hash_header`: read 8 bytes at `pointer.start` and decode
the two little-endian `u32` fields. -/
def GvdbHashTable.hash_header (data : List Nat) (pointer : GvdbPointer) :
    Except GvdbError GvdbHashHeader :=
  match readU32LE data pointer.start, readU32LE data (pointer.start + 4) with
  | some w0, some w1 => .ok ⟨w0, w1⟩
  | _, _ => .error .dataOffset

/-- `GvdbHashTable::deref_pointer` (gvdb_table_dereference). -/
def GvdbHashTable.deref_pointer (t : GvdbHashTable) (pointer : GvdbPointer)
    (alignment : Nat) : Except GvdbError (List Nat) :=
  if pointer.start > pointer.end_ then .error .dataOffset
  else if pointer.start &&& (alignment - 1) ≠ 0 then .error .dataAlignment
  else match sliceOpt t.data pointer.start pointer.end_ with
    | some s => .ok s
    | none => .error .dataOffset

/-- `GvdbHashTable::get_u32`. -/
def GvdbHashTable.get_u32 (t : GvdbHashTable) (offset : Nat) : Option Nat :=
  readU32LE t.data offset

/-- `GvdbHashTable::data_offset`. -/
def GvdbHashTable.data_offset (t : GvdbHashTable) : Nat :=
  t.table_ptr.start

/-- `GvdbHashTable::bloom_words_offset` (= start + sizeof header). -/
def GvdbHashTable.bloom_words_offset (t : GvdbHashTable) : Nat :=
  t.data_offset + 8

/-- `GvdbHashTable::bloom_words_end`. -/
def GvdbHashTable.bloom_words_end (t : GvdbHashTable) : Nat :=
  t.bloom_words_offset + t.header.n_bloom_words * 4

/-- `GvdbHashTable::get_bloom_word`. -/
def GvdbHashTable.get_bloom_word (t : GvdbHashTable) (index : Nat) : Option Nat :=
  t.get_u32 (t.bloom_words_offset + index * 4)

/-- `GvdbHashTable::bloom_shift`: hard-coded to 0 (TODO in the source). -/
def GvdbHashTable.bloom_shift (_t : GvdbHashTable) : Nat := 0

/-- `GvdbHashTable::hash_buckets_offset`. -/
def GvdbHashTable.hash_buckets_offset (t : GvdbHashTable) : Nat :=
  t.bloom_words_end

/-- `GvdbHashTable::hash_buckets_end`.  The source uses the raw (unmasked)
`n_buckets` header field here, which equals `n_buckets()` since that accessor
applies no mask. -/
def GvdbHashTable.hash_buckets_end (t : GvdbHashTable) : Nat :=
  t.hash_buckets_offset + t.header.n_buckets * 4

/-- `GvdbHashTable::get_hash`: read bucket entry `index`. -/
def GvdbHashTable.get_hash (t : GvdbHashTable) (index : Nat) : Option Nat :=
  t.get_u32 (t.hash_buckets_offset + index * 4)

/-- `GvdbHashTable::hash_items_offset`. -/
def GvdbHashTable.hash_items_offset (t : GvdbHashTable) : Nat :=
  t.hash_buckets_end

/-- `GvdbHashTable::n_hash_items`: `(table_ptr.end - hash_items_offset) / 24`.
The Rust `usize` subtraction would panic when `end < hash_items_offset`; for a
table accepted by `for_bytes` this cannot happen (`hash_items_offset ≤
end - start ≤ end`), and `Nat` truncation agrees with the source on every
reachable input. -/
def GvdbHashTable.n_hash_items (t : GvdbHashTable) : Nat :=
  (t.table_ptr.end_ - t.hash_items_offset) / sizeOfGvdbHashItem

/-- `GvdbHashTable::for_bytes`: decode the header, dereference the table
pointer with alignment 4, then validate the derived offsets against the
dereferenced slice's length and require the remaining size to be a multiple
of the item size. -/
def GvdbHashTable.for_bytes (data : List Nat) (table_ptr : GvdbPointer) :
    Except GvdbError GvdbHashTable :=
  match GvdbHashTable.hash_header data table_ptr with
  | .error e => .error e
  | .ok header =>
    let this : GvdbHashTable := ⟨data, table_ptr, header⟩
    match this.deref_pointer this.table_ptr 4 with
    | .error e => .error e
    | .ok table_data =>
      if this.bloom_words_offset > table_data.length ∨
          this.hash_buckets_offset > table_data.length ∨
          this.hash_items_offset > table_data.length then
        .error .dataOffset
      else if (table_data.length - this.hash_items_offset) % sizeOfGvdbHashItem ≠ 0 then
        .error (.dataError ("Remaining size invalid: Expected a multiple of " ++
          toString sizeOfGvdbHashItem ++ ", got " ++ toString table_data.length))
      else
        .ok this

/-- `GvdbHashTable::get_key` (gvdb_table_item_get_key): read the suffix bytes
at `[key_start, key_start + key_size)` and require them to be valid UTF-8
(`String::from_utf8`); the key is kept as its byte sequence, since equality,
length and concatenation of Rust `String`s coincide with those of their
UTF-8 bytes. -/
def GvdbHashTable.get_key (t : GvdbHashTable) (item : GvdbHashItem) :
    Except GvdbError (List Nat) :=
  match sliceOpt t.data item.key_start (item.key_start + item.key_size) with
  | none => .error .dataOffset
  | some bytes => if utf8Valid bytes then .ok bytes else .error .utf8

/-- `GvdbHashTable::get_hash_item`: decode the 24 bytes at
`hash_items_offset + 24 * index` into a `GvdbHashItem` (the
`transmute_one_pedantic` of the `repr(C)` struct, little-endian fields; the
run-time address alignment that the pedantic transmute additionally checks is
a property of the host allocation, not of the byte contents, and is not
modelled). -/
def GvdbHashTable.get_hash_item (t : GvdbHashTable) (index : Nat) :
    Except GvdbError GvdbHashItem :=
  let start := t.hash_items_offset + sizeOfGvdbHashItem * index
  if start + sizeOfGvdbHashItem ≤ t.data.length then
    .ok
      { hash_value := byteAt t.data start + 256 * byteAt t.data (start + 1) +
          65536 * byteAt t.data (start + 2) + 16777216 * byteAt t.data (start + 3)
        parent := byteAt t.data (start + 4) + 256 * byteAt t.data (start + 5) +
          65536 * byteAt t.data (start + 6) + 16777216 * byteAt t.data (start + 7)
        key_start := byteAt t.data (start + 8) + 256 * byteAt t.data (start + 9) +
          65536 * byteAt t.data (start + 10) + 16777216 * byteAt t.data (start + 11)
        key_size := readU16LE t.data (start + 12)
        typ := byteAt t.data (start + 14)
        unused := byteAt t.data (start + 15)
        value := ⟨byteAt t.data (start + 16) + 256 * byteAt t.data (start + 17) +
            65536 * byteAt t.data (start + 18) + 16777216 * byteAt t.data (start + 19),
          byteAt t.data (start + 20) + 256 * byteAt t.data (start + 21) +
            65536 * byteAt t.data (start + 22) + 16777216 * byteAt t.data (start + 23)⟩ }
  else
    .error .dataOffset

/-- `GvdbHashTable::bloom_filter` (gvdb_table_bloom_filter).  The source
unwraps `get_bloom_word`, which panics when the read is out of range; the
panic is modelled as `none`. -/
def GvdbHashTable.bloom_filterO (t : GvdbHashTable) (hash_value : Nat) :
    Option Bool :=
  if t.header.n_bloom_words = 0 then some true
  else
    let word := (hash_value / 32) % t.header.n_bloom_words
    let mask := (1 <<< (hash_value &&& 31)) |||
      (1 <<< ((hash_value >>> t.bloom_shift) &&& 31))
    (t.get_bloom_word word).map (fun bloom_word => bloom_word &&& mask == mask)

/-- `GvdbHashTable::check_name`, with an explicit recursion-depth fuel.  The
Rust function recurses into the parent item with the *unchanged* key and no
cycle guard; since the key never changes, the recursion's entire state is the
current item, so it either terminates within `n_hash_items` steps (all
visited item indices distinct) or repeats an item and diverges.  `none` at
fuel 0 therefore models exactly the diverging (stack-overflow) executions. -/
def GvdbHashTable.checkNameFuel (t : GvdbHashTable) :
    Nat → GvdbHashItem → List Nat → Option Bool
  | 0, _, _ => none
  | fuel + 1, item, key =>
    match t.get_key item with
    | .error _ => some false
    | .ok this_key =>
      if key = this_key then
        if key.length = this_key.length ∧ item.parent = 4294967295 then
          some true
        else if item.parent < t.n_hash_items ∧ 0 < key.length then
          match t.get_hash_item item.parent with
          | .error _ => some false
          | .ok parent_item => t.checkNameFuel fuel parent_item key
        else
          some false
      else
        some false

/-- `GvdbHashTable::check_name` at the canonical fuel `n_hash_items + 1`,
which is exhausted exactly on the diverging executions. -/
def GvdbHashTable.check_name (t : GvdbHashTable) (item : GvdbHashItem)
    (key : List Nat) : Option Bool :=
  t.checkNameFuel (t.n_hash_items + 1) item key

/-- The scan `while itemno < lastno` inside `table_lookup`, with
`remaining = lastno - itemno`.  Outer `none` propagates a panic or divergence
from `check_name`; `some none` is Rust's `None`. -/
def lookupLoop (t : GvdbHashTable) (key : List Nat) (typ : Nat)
    (hash_value : Nat) : Nat → Nat → Option (Option GvdbHashItem)
  | 0, _ => some none
  | remaining + 1, itemno =>
    match t.get_hash_item itemno with
    | .error _ => some none
    | .ok item =>
      if hash_value = item.hash_value then
        match t.check_name item key with
        | none => none
        | some true =>
          if item.typ = typ then some (some item)
          else lookupLoop t key typ hash_value remaining (itemno + 1)
        | some false => lookupLoop t key typ hash_value remaining (itemno + 1)
      else
        lookupLoop t key typ hash_value remaining (itemno + 1)

/-- `GvdbHashTable::table_lookup`.  Outer `none` models a panic or
divergence; `some none` is Rust's `None`; `some (some item)` a hit. -/
def GvdbHashTable.table_lookup (t : GvdbHashTable) (key : List Nat)
    (typ : Nat) : Option (Option GvdbHashItem) :=
  if t.header.n_buckets = 0 ∨ t.n_hash_items = 0 then some none
  else
    let hash_value := djb_hash key
    match t.bloom_filterO hash_value with
    | none => none
    | some false => some none
    | some true =>
      let bucket := hash_value % t.header.n_buckets
      match t.get_hash bucket with
      | none => some none
      | some itemno =>
        if bucket = t.header.n_buckets - 1 then
          lookupLoop t key typ hash_value (t.n_hash_items - itemno) itemno
        else
          match t.get_hash (bucket + 1) with
          | none => some none
          | some nxt =>
            lookupLoop t key typ hash_value (min nxt t.n_hash_items - itemno) itemno

/-- `GvdbHashTable::value_from_item`: dereference the value pointer with
alignment 8; the value is kept as its raw bytes (the external
`glib::Variant::from_data_with_type` wrapper does not fail). -/
def GvdbHashTable.value_from_item (t : GvdbHashTable) (item : GvdbHashItem) :
    Option (List Nat) :=
  (t.deref_pointer item.value 8).toOption

/-- `GvdbHashTable::get_value`: look up with type tag `'v'` (118). -/
def GvdbHashTable.get_value (t : GvdbHashTable) (key : List Nat) :
    Option (Option (List Nat)) :=
  match t.table_lookup key 118 with
  | none => none
  | some none => some none
  | some (some item) => some (t.value_from_item item)

/-- Result of `GvdbHashTable::get_names`: normal return, error return, or a
panic (the final `unwrap` of a still-`None` name, which the source can
reach). -/
inductive NamesResult where
  | ok (names : List (List Nat))
  | err (e : GvdbError)
  | panicked
  deriving Repr, DecidableEq

/-- One round of the `get_names` loop: process the given item indices in
order, threading the `names` array and the `inserted` counter exactly as the
source's `for index in 0..count` body does. -/
def namesScan (t : GvdbHashTable) (count : Nat) :
    List Nat → List (Option (List Nat)) → Nat →
    Except GvdbError (List (Option (List Nat)) × Nat)
  | [], names, inserted => .ok (names, inserted)
  | index :: rest, names, inserted =>
    match t.get_hash_item index with
    | .error e => .error e
    | .ok item =>
      if item.parent = 4294967295 then
        match t.get_key item with
        | .error e => .error e
        | .ok name =>
          namesScan t count rest (names.set index (some name)) (inserted + 1)
      else if item.parent < count ∧ (names.getD item.parent none).isSome then
        match t.get_key item with
        | .error e => .error e
        | .ok name =>
          let parent_name := (names.getD item.parent none).getD []
          namesScan t count rest (names.set index (some (name ++ parent_name)))
            (inserted + 1)
      else if item.parent > count then
        .error (.dataError ("Parent with invalid offset encountered: " ++
          toString item.parent))
      else
        namesScan t count rest names inserted

/-- One full round over indices `0 .. count`. -/
def namesRound (t : GvdbHashTable) (count : Nat)
    (names : List (Option (List Nat))) (inserted : Nat) :
    Except GvdbError (List (Option (List Nat)) × Nat) :=
  namesScan t count (List.range count) names inserted

/-- Turn the names array into the final list, panicking (like the source's
`unwrap`) when some entry is still `None`. -/
def namesFinish : List (Option (List Nat)) → NamesResult
  | [] => .ok []
  | none :: _ => .panicked
  | some n :: rest =>
    match namesFinish rest with
    | .ok l => .ok (n :: l)
    | r => r

/-- The `while inserted < count` loop of `get_names`.  Each continuing round
strictly increases `inserted`, so fuel `count + 1` is never exhausted when
starting from `inserted = 0`; the fuel-0 case is unreachable from
`get_names`. -/
def namesLoop (t : GvdbHashTable) (count : Nat) :
    Nat → List (Option (List Nat)) → Nat → NamesResult
  | 0, names, inserted =>
    if inserted < count then .panicked else namesFinish names
  | fuel + 1, names, inserted =>
    if inserted < count then
      match namesRound t count names inserted with
      | .error e => .err e
      | .ok (names2, inserted2) =>
        if inserted2 = inserted then .err .invalidData
        else namesLoop t count fuel names2 inserted2
    else
      namesFinish names

/-- `GvdbHashTable::get_names` (the reader's `list()`). -/
def GvdbHashTable.get_names (t : GvdbHashTable) : NamesResult :=
  let count := t.n_hash_items
  namesLoop t count (count + 1) (List.replicate count none) 0

/-- Modelled from the spec: the writer's `GvdbBuilderItem`
(src/gvdb/src/write/item.rs is not among the provided sources) — a record of
the key, its djb hash, and the value; the mutable next-in-chain link is
represented by the position of the item in its bucket's chain list. -/
structure BuilderItem (V : Type) where
  key : List Nat
  hash_value : Nat
  value : V
  deriving Repr, DecidableEq

/-- `SimpleHashTable` (src/gvdb/src/write/hash.rs): the bucket array, each
bucket holding its chain as a list ordered from chain head to chain tail,
plus the item counter. -/
structure SimpleHashTable (V : Type) where
  buckets : List (List (BuilderItem V))
  n_items : Nat
  deriving Repr, DecidableEq

/-- `SimpleHashTable::with_n_buckets`. -/
def SimpleHashTable.with_n_buckets (V : Type) (n : Nat) : SimpleHashTable V :=
  ⟨List.replicate n [], 0⟩

/-- `SimpleHashTable::n_buckets`. -/
def SimpleHashTable.n_buckets {V : Type} (t : SimpleHashTable V) : Nat :=
  t.buckets.length

/-- The chain stored at `key`'s bucket (`hash_bucket` plus the bucket read). -/
def SimpleHashTable.bucketChain {V : Type} (t : SimpleHashTable V)
    (key : List Nat) : List (BuilderItem V) :=
  t.buckets.getD (djb_hash key % t.buckets.length) []

/-- Whether `key` equals the key of the current head of its bucket chain. -/
def SimpleHashTable.headMatches {V : Type} (t : SimpleHashTable V)
    (key : List Nat) : Bool :=
  match t.bucketChain key with
  | [] => false
  | hd :: _ => hd.key == key

/-- `SimpleHashTable::insert`: swap the new item into the bucket head; when
the displaced head bears the same key, take over its next link (dropping the
old head); otherwise chain the old head behind the new item and count one
more item.  `none` models the `hash_value % 0` panic of `hash_bucket` on a
table with no buckets. -/
def SimpleHashTable.insert {V : Type} (t : SimpleHashTable V) (key : List Nat)
    (v : V) : Option (SimpleHashTable V × BuilderItem V) :=
  if t.buckets.length = 0 then none
  else
    let hash_value := djb_hash key
    let bucket := hash_value % t.buckets.length
    let item : BuilderItem V := ⟨key, hash_value, v⟩
    match t.buckets.getD bucket [] with
    | [] => some (⟨t.buckets.set bucket [item], t.n_items + 1⟩, item)
    | replaced :: tail =>
      if replaced.key = key then
        some (⟨t.buckets.set bucket (item :: tail), t.n_items⟩, item)
      else
        some (⟨t.buckets.set bucket (item :: replaced :: tail), t.n_items + 1⟩, item)

/-- The chain walk of `get_from_bucket`, returning the first item whose key
matches. -/
def chainFind {V : Type} : List (BuilderItem V) → List Nat →
    Option (BuilderItem V)
  | [], _ => none
  | it :: rest, key => if it.key = key then some it else chainFind rest key

/-- `SimpleHashTable::get`.  `none` models the `hash_bucket` panic on a table
with no buckets; `some r` is the Rust return value. -/
def SimpleHashTable.get {V : Type} (t : SimpleHashTable V) (key : List Nat) :
    Option (Option (BuilderItem V)) :=
  if t.buckets.length = 0 then none
  else some (chainFind (t.buckets.getD (djb_hash key % t.buckets.length) []) key)

/-- Fold a sequence of `(key, value)` pairs through `insert`, dropping the
returned item handles. -/
def seqInsert {V : Type} (t : SimpleHashTable V) :
    List (List Nat × V) → Option (SimpleHashTable V)
  | [] => some t
  | (k, v) :: rest =>
    match t.insert k v with
    | none => none
    | some (t2, _) => seqInsert t2 rest

/-- Modelled from the spec: the `check_name` that the spec describes
(section 4.3 step 6) — verify that the suffix bytes equal the *tail* of the
key; at a root require the lengths to match exactly; otherwise recurse into
the parent item against the remaining prefix.  Used only to exhibit the
divergence between the source's `check_name` and the specified one. -/
def GvdbHashTable.checkNameSpecFuel (t : GvdbHashTable) :
    Nat → GvdbHashItem → List Nat → Option Bool
  | 0, _, _ => none
  | fuel + 1, item, key =>
    match t.get_key item with
    | .error _ => some false
    | .ok this_key =>
      if this_key.IsSuffix key then
        if item.parent = 4294967295 then
          some (key.length = this_key.length)
        else if item.parent < t.n_hash_items then
          match t.get_hash_item item.parent with
          | .error _ => some false
          | .ok parent_item =>
            t.checkNameSpecFuel fuel parent_item
              (key.take (key.length - this_key.length))
        else
          some false
      else
        some false

/-- Decidable equality for `Except`, used to evaluate the embedding on
concrete inputs. -/
instance {ε α : Type} [DecidableEq ε] [DecidableEq α] :
    DecidableEq (Except ε α) := fun
  | .ok a, .ok b =>
    if h : a = b then .isTrue (by rw [h])
    else .isFalse (by intro hc; cases hc; exact h rfl)
  | .error e, .error f =>
    if h : e = f then .isTrue (by rw [h])
    else .isFalse (by intro hc; cases hc; exact h rfl)
  | .ok _, .error _ => .isFalse (by intro hc; cases hc)
  | .error _, .ok _ => .isFalse (by intro hc; cases hc)

/-- Little-endian bytes of a `u32`. -/
def u32le (n : Nat) : List Nat :=
  [n % 256, n / 256 % 256, n / 65536 % 256, n / 16777216 % 256]

/-- Little-endian bytes of a `u16`. -/
def u16le (n : Nat) : List Nat :=
  [n % 256, n / 256 % 256]

/-- Serialized form of one hash item. -/
def itemBytes (hash parent key_start key_size typ vs ve : Nat) : List Nat :=
  u32le hash ++ u32le parent ++ u32le key_start ++ u16le key_size ++
    [typ, 0] ++ u32le vs ++ u32le ve

/-- A two-item hierarchical table: item 0 is the root with suffix "A" (65),
item 1 has parent 0 and suffix "B" (66); no bloom words, no buckets. -/
def dataHier : List Nat :=
  u32le 0 ++ u32le 0 ++
    itemBytes 0 4294967295 56 1 118 0 0 ++
    itemBytes 0 0 57 1 118 0 0 ++
    [65, 66]

/-- The two-item hierarchical table as accepted by `for_bytes`. -/
def tblHier : GvdbHashTable :=
  ⟨dataHier, ⟨0, 56⟩, ⟨0, 0⟩⟩

/-- The child item (index 1) of `tblHier`. -/
def itemHierChild : GvdbHashItem :=
  ⟨0, 0, 57, 1, 118, 0, ⟨0, 0⟩⟩

/-- Forty zero bytes: a table pointer `(8, 40)` over this data satisfies the
spec's construction conditions (offsets at 16, all of `16 ≤ 40`, remainder
`(40 - 16) % 24 = 0`), yet `for_bytes` rejects it. -/
def dataZeros40 : List Nat := List.replicate 40 0

/-- A pure two-cycle: items 0 and 1 name each other as parent. -/
def dataCycle2 : List Nat :=
  u32le 0 ++ u32le 0 ++
    itemBytes 0 1 0 0 118 0 0 ++
    itemBytes 0 0 0 0 118 0 0

def tblCycle2 : GvdbHashTable :=
  ⟨dataCycle2, ⟨0, 56⟩, ⟨0, 0⟩⟩

/-- A two-cycle plus a root item: items 0 and 1 name each other as parent,
item 2 is a root with suffix "C" (67). -/
def dataCycleRoot : List Nat :=
  u32le 0 ++ u32le 0 ++
    itemBytes 0 1 0 0 118 0 0 ++
    itemBytes 0 0 0 0 118 0 0 ++
    itemBytes 0 4294967295 80 1 118 0 0 ++
    [67]

def tblCycleRoot : GvdbHashTable :=
  ⟨dataCycleRoot, ⟨0, 80⟩, ⟨0, 0⟩⟩

/-- A one-item table whose single item has `parent = 1 = n_items()`. -/
def dataParEq : List Nat :=
  u32le 0 ++ u32le 0 ++ itemBytes 0 1 0 0 118 0 0

def tblParEq : GvdbHashTable :=
  ⟨dataParEq, ⟨0, 32⟩, ⟨0, 0⟩⟩

/-- A one-item table whose single item has `parent = 2 > n_items() = 1`. -/
def dataParGt : List Nat :=
  u32le 0 ++ u32le 0 ++ itemBytes 0 2 0 0 118 0 0

def tblParGt : GvdbHashTable :=
  ⟨dataParGt, ⟨0, 32⟩, ⟨0, 0⟩⟩

/-- A table with one bloom word equal to zero, no buckets and no items. -/
def dataBloom : List Nat :=
  u32le 1 ++ u32le 0 ++ u32le 0

def tblBloom : GvdbHashTable :=
  ⟨dataBloom, ⟨0, 12⟩, ⟨1, 0⟩⟩

/-- The empty table: header only, no bloom words, no buckets, no items. -/
def dataEmptyT : List Nat := List.replicate 8 0

def tblEmptyT : GvdbHashTable :=
  ⟨dataEmptyT, ⟨0, 8⟩, ⟨0, 0⟩⟩

/-- The parent links of a table form a forest: some measure strictly
decreases from an item to its (in-range, non-root) parent, and — since a
forest's depth is at most the item count — the measure is bounded by
`n_hash_items`. -/
def ParentForest (t : GvdbHashTable) : Prop :=
  ∃ d : Nat → Nat, (∀ i, d i < t.n_hash_items + 1) ∧
    ∀ i item, t.get_hash_item i = .ok item → item.parent ≠ 4294967295 →
      item.parent < t.n_hash_items → d item.parent < d i

/-- Auxiliary: reading back the just-set position of a list. -/
theorem getD_set_self {α : Type} (l : List α) (i : Nat) (a d : α)
    (h : i < l.length) : (l.set i a).getD i d = a := by
  induction l generalizing i with
  | nil => simp at h
  | cons x xs ih =>
    cases i with
    | zero => simp [List.set, List.getD]
    | succ j =>
      simp only [List.set, List.getD, List.get?] at *
      exact ih j (by simpa using h)

/-- C1, code evaluation at the failing input: on the readable two-item table
whose root owns suffix "A" (byte 65) and whose child owns suffix "B" (66)
with parent 0, `get_names` records the child's full key as the child suffix
followed by the parent's full key ("BA", bytes [66, 65]) — not the parent's
full key followed by the suffix ("AB", bytes [65] ++ [66]) as the claim
states. -/
theorem c1_names_order_eval :
    GvdbHashTable.for_bytes dataHier ⟨0, 56⟩ = .ok tblHier ∧
    tblHier.get_names = .ok [[65], [66, 65]] ∧
    [66, 65] ≠ [65] ++ ([66] : List Nat) := by
  refine ⟨by decide, by decide, by decide⟩

/-- C2, code evaluation at the failing input: on the same readable table, the
specified `check_name` (tail match, then recursion on the remaining prefix)
accepts the hierarchical key "AB" ([65, 66]) at the child item, while the
source's `check_name` — which compares the whole key against the item's
suffix and recurses with the unchanged key — rejects it. -/
theorem c2_check_name_eval :
    GvdbHashTable.for_bytes dataHier ⟨0, 56⟩ = .ok tblHier ∧
    tblHier.get_hash_item 1 = .ok itemHierChild ∧
    tblHier.checkNameSpecFuel 5 itemHierChild [65, 66] = some true ∧
    tblHier.checkNameFuel 5 itemHierChild [65, 66] = some false := by
  refine ⟨by decide, by decide, by decide, by decide⟩

/-- C4, code evaluation at the failing input: over forty zero bytes with
table pointer `(8, 40)`, all of the claim's conditions hold (the derived
offsets, all 16, are at most the pointer end 40 and `(40 - 16) % 24 = 0`),
yet `for_bytes` fails with `DataError` because it compares the offsets and
the remainder against the dereferenced slice's length `40 - 8 = 32` instead
of the pointer end. -/
theorem c4_for_bytes_eval :
    8 + 8 ≤ 40 ∧ 8 + 8 + 4 * 0 ≤ 40 ∧ 8 + 8 + 4 * 0 + 4 * 0 ≤ 40 ∧
    (40 - (8 + 8 + 4 * 0 + 4 * 0)) % 24 = 0 ∧
    GvdbHashTable.for_bytes dataZeros40 ⟨8, 40⟩ =
      .error (.dataError "Remaining size invalid: Expected a multiple of 24, got 32") := by
  refine ⟨by decide, by decide, by decide, by decide, by decide⟩

/-- C8: `get` immediately after `insert` on the same key returns the item
that `insert` just created, holding the inserted value. -/
theorem c8_insert_then_get {V : Type} (t : SimpleHashTable V) (key : List Nat)
    (v : V) (t2 : SimpleHashTable V) (it : BuilderItem V)
    (h : t.insert key v = some (t2, it)) :
    t2.get key = some (some it) ∧ it.value = v ∧ it.key = key := by
  have hlen : ¬t.buckets.length = 0 := by
    intro h0
    rw [SimpleHashTable.insert, if_pos h0] at h
    exact Option.noConfusion h
  have hpos : 0 < t.buckets.length := Nat.pos_of_ne_zero hlen
  have hbkt : djb_hash key % t.buckets.length < t.buckets.length :=
    Nat.mod_lt _ hpos
  rw [SimpleHashTable.insert, if_neg hlen] at h
  simp only [] at h
  rcases hchain : t.buckets.getD (djb_hash key % t.buckets.length) [] with
    _ | ⟨replaced, tail⟩
  all_goals rw [hchain] at h
  · injection h with h1
    rw [Prod.mk.injEq] at h1
    obtain ⟨h2, h3⟩ := h1
    subst h2; subst h3
    refine ⟨?_, rfl, rfl⟩
    rw [SimpleHashTable.get]
    simp only [List.length_set]
    rw [if_neg hlen, getD_set_self _ _ _ _ hbkt]
    simp [chainFind]
  · by_cases hk : replaced.key = key
    all_goals simp only [hk, if_pos, if_neg, ite_true, ite_false] at h
    all_goals injection h with h1
    all_goals rw [Prod.mk.injEq] at h1
    all_goals obtain ⟨h2, h3⟩ := h1
    all_goals subst h2
    all_goals subst h3
    all_goals refine ⟨?_, rfl, rfl⟩
    all_goals rw [SimpleHashTable.get]
    all_goals simp only [List.length_set]
    all_goals rw [if_neg hlen, getD_set_self _ _ _ _ hbkt]
    all_goals simp [chainFind]

/-- C8 witness: inserting key "a" (byte 97) with value 5 into a fresh
three-bucket table and reading it back. -/
theorem c8_insert_then_get_witness :
    SimpleHashTable.get
      ⟨(SimpleHashTable.with_n_buckets Nat 3).buckets.set (djb_hash [97] % 3)
        [⟨[97], djb_hash [97], 5⟩], 1⟩ [97] =
      some (some ⟨[97], djb_hash [97], 5⟩) := by
  have h := c8_insert_then_get (SimpleHashTable.with_n_buckets Nat 3) [97] 5
    ⟨(SimpleHashTable.with_n_buckets Nat 3).buckets.set (djb_hash [97] % 3)
      [⟨[97], djb_hash [97], 5⟩], 1⟩ ⟨[97], djb_hash [97], 5⟩ (by decide)
  exact h.1

/-- C3 counterexample: with one bucket, inserting "a" (97), "b" (98), "a"
again yields `n_items = 3`, although only two distinct keys were inserted —
re-inserting a key that is present but not at the head of its bucket chain
adds a duplicate instead of replacing in place. -/
theorem c3_duplicate_key_cex :
    (seqInsert (SimpleHashTable.with_n_buckets Nat 1)
        [([97], 1), ([98], 2), ([97], 3)]).map SimpleHashTable.n_items =
      some 3 ∧
    ([[97], [98], [97]] : List (List Nat)).dedup.length = 2 := by
  refine ⟨by decide, by decide⟩

/-- C3 amended: `insert` examines only the head of the bucket chain.  When
the key equals the head's key, the head is replaced in place (the rest of the
chain and the item count are preserved); in every other case — including a
key already present deeper in the chain — a new item is prepended and the
count increments, so `n_items()` equals the number of distinct keys only for
sequences whose repeated keys are re-inserted while heading their bucket. -/
theorem c3_insert_head_only {V : Type} (t : SimpleHashTable V) (key : List Nat)
    (v : V) (t2 : SimpleHashTable V) (it : BuilderItem V)
    (h : t.insert key v = some (t2, it)) :
    (t.headMatches key = true → t2.n_items = t.n_items ∧
      t2.bucketChain key = it :: (t.bucketChain key).tail) ∧
    (t.headMatches key = false → t2.n_items = t.n_items + 1 ∧
      t2.bucketChain key = it :: t.bucketChain key) := by
  have hlen : ¬t.buckets.length = 0 := by
    intro h0
    rw [SimpleHashTable.insert, if_pos h0] at h
    exact Option.noConfusion h
  have hpos : 0 < t.buckets.length := Nat.pos_of_ne_zero hlen
  have hbkt : djb_hash key % t.buckets.length < t.buckets.length :=
    Nat.mod_lt _ hpos
  rw [SimpleHashTable.insert, if_neg hlen] at h
  simp only [] at h
  have hchn : t.bucketChain key = t.buckets.getD (djb_hash key % t.buckets.length) [] := rfl
  rcases hchain : t.buckets.getD (djb_hash key % t.buckets.length) [] with
    _ | ⟨replaced, tail⟩
  all_goals rw [hchain] at h
  · injection h with h1
    rw [Prod.mk.injEq] at h1
    obtain ⟨h2, h3⟩ := h1
    subst h2; subst h3
    constructor
    · intro hm
      rw [SimpleHashTable.headMatches, hchn, hchain] at hm
      exact Bool.noConfusion hm
    · intro _
      refine ⟨rfl, ?_⟩
      rw [SimpleHashTable.bucketChain]
      simp only [List.length_set]
      rw [getD_set_self _ _ _ _ hbkt, hchn, hchain]
  · by_cases hk : replaced.key = key
    · simp only [hk, ite_true] at h
      injection h with h1
      rw [Prod.mk.injEq] at h1
      obtain ⟨h2, h3⟩ := h1
      subst h2; subst h3
      constructor
      · intro _
        refine ⟨rfl, ?_⟩
        rw [SimpleHashTable.bucketChain]
        simp only [List.length_set]
        rw [getD_set_self _ _ _ _ hbkt, hchn, hchain]
        rfl
      · intro hm
        rw [SimpleHashTable.headMatches, hchn, hchain] at hm
        simp only [hk] at hm
        exact absurd hm (by simp)
    · simp only [hk, ite_false] at h
      injection h with h1
      rw [Prod.mk.injEq] at h1
      obtain ⟨h2, h3⟩ := h1
      subst h2; subst h3
      constructor
      · intro hm
        rw [SimpleHashTable.headMatches, hchn, hchain] at hm
        simp only [beq_iff_eq] at hm
        exact absurd hm hk
      · intro _
        refine ⟨rfl, ?_⟩
        rw [SimpleHashTable.bucketChain]
        simp only [List.length_set]
        rw [getD_set_self _ _ _ _ hbkt, hchn, hchain]

/-- C3 amended, witness: inserting "a" (97) into a fresh one-bucket table
(whose bucket head does not match) increments the count and prepends. -/
theorem c3_insert_head_only_witness :
    (SimpleHashTable.with_n_buckets Nat 1).headMatches [97] = false ∧
    (⟨(SimpleHashTable.with_n_buckets Nat 1).buckets.set (djb_hash [97] % 1)
        [⟨[97], djb_hash [97], 7⟩], 0 + 1⟩ : SimpleHashTable Nat).n_items =
      (SimpleHashTable.with_n_buckets Nat 1).n_items + 1 ∧
    (⟨(SimpleHashTable.with_n_buckets Nat 1).buckets.set (djb_hash [97] % 1)
        [⟨[97], djb_hash [97], 7⟩], 0 + 1⟩ : SimpleHashTable Nat).bucketChain [97] =
      ⟨[97], djb_hash [97], 7⟩ :: (SimpleHashTable.with_n_buckets Nat 1).bucketChain [97] := by
  have h := (c3_insert_head_only (SimpleHashTable.with_n_buckets Nat 1) [97] 7
    ⟨(SimpleHashTable.with_n_buckets Nat 1).buckets.set (djb_hash [97] % 1)
      [⟨[97], djb_hash [97], 7⟩], 0 + 1⟩ ⟨[97], djb_hash [97], 7⟩
    (by decide)).2 (by decide)
  exact ⟨by decide, h.1, h.2⟩

/-- Auxiliary: a round of `get_names` never decreases the insertion
counter. -/
theorem namesScan_mono (t : GvdbHashTable) (count : Nat) :
    ∀ (idxs : List Nat) (names : List (Option (List Nat))) (ins : Nat)
      (names2 : List (Option (List Nat))) (ins2 : Nat),
      namesScan t count idxs names ins = .ok (names2, ins2) → ins ≤ ins2 := by
  intro idxs
  induction idxs with
  | nil =>
    intro names ins names2 ins2 h
    rw [namesScan] at h
    injection h with h1
    rw [Prod.mk.injEq] at h1
    omega
  | cons i rest ih =>
    intro names ins names2 ins2 h
    rw [namesScan] at h
    cases hgi : t.get_hash_item i with
    | error e =>
      simp only [hgi] at h
      exact Except.noConfusion h
    | ok item =>
      simp only [hgi] at h
      by_cases hroot : item.parent = 4294967295
      · rw [if_pos hroot] at h
        cases hk : t.get_key item with
        | error e =>
          simp only [hk] at h
          exact Except.noConfusion h
        | ok name =>
          simp only [hk] at h
          have := ih _ _ _ _ h
          omega
      · rw [if_neg hroot] at h
        by_cases hpar : item.parent < count ∧ (names.getD item.parent none).isSome
        · rw [if_pos hpar] at h
          cases hk : t.get_key item with
          | error e =>
            simp only [hk] at h
            exact Except.noConfusion h
          | ok name =>
            simp only [hk] at h
            have := ih _ _ _ _ h
            omega
        · rw [if_neg hpar] at h
          by_cases hgt : item.parent > count
          · rw [if_pos hgt] at h
            exact Except.noConfusion h
          · rw [if_neg hgt] at h
            exact ih _ _ _ _ h

/-- Auxiliary: any fuel beyond `count - inserted` rounds produces the same
answer; together with the strict progress of each continuing round this is
the termination argument of the `get_names` loop. -/
theorem namesLoop_fuel_indep (t : GvdbHashTable) (count : Nat) :
    ∀ (f1 f2 : Nat) (names : List (Option (List Nat))) (ins : Nat),
      count < ins + f1 → count < ins + f2 →
      namesLoop t count f1 names ins = namesLoop t count f2 names ins := by
  intro f1
  induction f1 with
  | zero =>
    intro f2 names ins h1 h2
    have hge : ¬ins < count := by omega
    cases f2 with
    | zero => rfl
    | succ g => rw [namesLoop, namesLoop, if_neg hge, if_neg hge]
  | succ f ih =>
    intro f2 names ins h1 h2
    by_cases hlt : ins < count
    · cases f2 with
      | zero => omega
      | succ g =>
        rw [namesLoop, namesLoop, if_pos hlt, if_pos hlt]
        cases hr : namesRound t count names ins with
        | error e => simp only [hr]
        | ok p =>
          obtain ⟨names2, ins2⟩ := p
          simp only [hr]
          by_cases heq : ins2 = ins
          · simp only [heq, ite_true]
          · rw [if_neg heq, if_neg heq]
            have hmono : ins ≤ ins2 := namesScan_mono t count _ _ _ _ _ hr
            exact ih g names2 ins2 (by omega) (by omega)
    · cases f2 with
      | zero => rw [namesLoop, namesLoop, if_neg hlt, if_neg hlt]
      | succ g => rw [namesLoop, namesLoop, if_neg hlt, if_neg hlt]

/-- Auxiliary: a round that makes no progress ends the loop with
`InvalidData`, for any remaining fuel. -/
theorem namesLoop_no_progress (t : GvdbHashTable) (count f : Nat)
    (names names2 : List (Option (List Nat))) (ins : Nat)
    (hlt : ins < count) (hr : namesRound t count names ins = .ok (names2, ins)) :
    namesLoop t count (f + 1) names ins = .err .invalidData := by
  rw [namesLoop, if_pos hlt]
  simp only [hr, ite_true]

/-- C5 amended: the `get_names` loop always terminates — its result is
independent of any fuel exceeding the round bound, and a round that makes no
progress returns `InvalidData` — and on a readable table whose items solely
name each other as parent it returns `InvalidData`.  (The original claim's
"terminates without panicking" on *every* readable table is refuted
separately: a parent cycle coexisting with a root item panics, because
already-resolved items are re-counted each round until the loop exits with
unresolved names.) -/
theorem c5_get_names_termination_amended :
    (∀ (t : GvdbHashTable) (f1 f2 : Nat) (names : List (Option (List Nat)))
        (ins : Nat),
        t.n_hash_items < ins + f1 → t.n_hash_items < ins + f2 →
        namesLoop t t.n_hash_items f1 names ins =
          namesLoop t t.n_hash_items f2 names ins) ∧
    (∀ (t : GvdbHashTable) (f : Nat)
        (names names2 : List (Option (List Nat))) (ins : Nat),
        ins < t.n_hash_items →
        namesRound t t.n_hash_items names ins = .ok (names2, ins) →
        namesLoop t t.n_hash_items (f + 1) names ins = .err .invalidData) ∧
    GvdbHashTable.for_bytes dataCycle2 ⟨0, 56⟩ = .ok tblCycle2 ∧
    tblCycle2.get_names = .err .invalidData := by
  exact ⟨fun t => namesLoop_fuel_indep t t.n_hash_items,
    fun t f names names2 ins => namesLoop_no_progress t t.n_hash_items f names names2 ins,
    by decide, by decide⟩

/-- C5 amended, witness: on the two-item cycle table, fuels 3 and 4 agree,
and a no-progress round at fuel 1 yields `InvalidData`. -/
theorem c5_get_names_termination_amended_witness :
    namesLoop tblCycle2 tblCycle2.n_hash_items 3 (List.replicate 2 none) 0 =
      namesLoop tblCycle2 tblCycle2.n_hash_items 4 (List.replicate 2 none) 0 ∧
    namesLoop tblParEq tblParEq.n_hash_items (0 + 1) (List.replicate 1 none) 0 =
      .err .invalidData := by
  exact ⟨c5_get_names_termination_amended.1 tblCycle2 3 4 (List.replicate 2 none) 0
      (by decide) (by decide),
    c5_get_names_termination_amended.2.1 tblParEq 0 (List.replicate 1 none)
      (List.replicate 1 none) 0 (by decide) (by decide)⟩

/-- C5 counterexample: on the readable three-item table where items 0 and 1
name each other as parent and item 2 is a root, `get_names` does *not*
return `InvalidData` — the root is re-counted every round until the counter
reaches the item count, and the final unwrap of the still-unresolved names
panics. -/
theorem c5_cycle_with_root_panics_cex :
    GvdbHashTable.for_bytes dataCycleRoot ⟨0, 80⟩ = .ok tblCycleRoot ∧
    tblCycleRoot.get_names = .panicked := by
  exact ⟨by decide, by decide⟩

/-- C6 amended: a parent value *strictly greater* than `n_items()` (here at
the first item, so that no earlier failure intervenes) makes `get_names`
return `DataError` naming the invalid parent.  A parent value *equal* to
`n_items()` is instead skipped silently and surfaces as `InvalidData` via the
no-progress exit (see the counterexample). -/
theorem c6_parent_gt_dataError (t : GvdbHashTable) (item : GvdbHashItem)
    (hc : 0 < t.n_hash_items)
    (hgi : t.get_hash_item 0 = .ok item)
    (hroot : item.parent ≠ 4294967295)
    (hgt : t.n_hash_items < item.parent) :
    t.get_names = .err (.dataError
      ("Parent with invalid offset encountered: " ++ toString item.parent)) := by
  rw [GvdbHashTable.get_names]
  obtain ⟨c, hceq⟩ : ∃ c, t.n_hash_items = c + 1 := ⟨t.n_hash_items - 1, by omega⟩
  rw [hceq]
  have hr : namesRound t (c + 1) (List.replicate (c + 1) none) 0 =
      .error (.dataError
        ("Parent with invalid offset encountered: " ++ toString item.parent)) := by
    rw [namesRound, List.range_succ_eq_map, namesScan]
    simp only [hgi]
    rw [if_neg hroot, if_neg (by rintro ⟨hp, _⟩; omega), if_pos (by omega)]
  rw [namesLoop, if_pos (by omega : 0 < c + 1)]
  simp only [hr]

/-- C6 amended, witness: the one-item table whose item has parent 2 (greater
than the item count 1). -/
theorem c6_parent_gt_dataError_witness :
    tblParGt.get_names =
      .err (.dataError ("Parent with invalid offset encountered: " ++ toString 2)) := by
  exact c6_parent_gt_dataError tblParGt ⟨0, 2, 0, 0, 118, 0, ⟨0, 0⟩⟩
    (by decide) (by decide) (by decide) (by decide)

/-- C6 counterexample: on the readable one-item table whose item has
`parent = 1 = n_items()` (and ≠ 0xFFFFFFFF), `get_names` returns
`InvalidData`, not the `DataError` the claim demands — the source's guard is
`parent > count`, so the boundary value falls through to the no-progress
exit. -/
theorem c6_parent_eq_invalidData_cex :
    GvdbHashTable.for_bytes dataParEq ⟨0, 32⟩ = .ok tblParEq ∧
    (tblParEq.get_hash_item 0).map GvdbHashItem.parent = .ok 1 ∧
    tblParEq.n_hash_items = 1 ∧
    tblParEq.get_names = .err .invalidData := by
  exact ⟨by decide, by decide, by decide, by decide⟩

/-- C7: a key whose hash misses the bloom filter — the bloom word at
`(h / 32) mod n_bloom_words` ANDed with the mask
`(1 << (h & 31)) | (1 << ((h >> bloom_shift) & 31))` differs from the mask —
makes `table_lookup` return `None`; the embedded control flow returns before
any bucket entry or hash item is read. -/
theorem c7_bloom_miss (t : GvdbHashTable) (key : List Nat) (typ w : Nat)
    (hn : 0 < t.header.n_bloom_words)
    (hw : t.get_bloom_word ((djb_hash key / 32) % t.header.n_bloom_words) = some w)
    (hmiss : w &&& ((1 <<< (djb_hash key &&& 31)) |||
        (1 <<< ((djb_hash key >>> t.bloom_shift) &&& 31))) ≠
      ((1 <<< (djb_hash key &&& 31)) |||
        (1 <<< ((djb_hash key >>> t.bloom_shift) &&& 31)))) :
    t.table_lookup key typ = some none := by
  have hbf : t.bloom_filterO (djb_hash key) = some false := by
    rw [GvdbHashTable.bloom_filterO, if_neg (by omega)]
    simp only [hw, Option.map_some']
    exact congrArg some (beq_eq_false_iff_ne.mpr hmiss)
  rw [GvdbHashTable.table_lookup]
  by_cases h0 : t.header.n_buckets = 0 ∨ t.n_hash_items = 0
  · rw [if_pos h0]
  · rw [if_neg h0]
    simp only [hbf]

/-- C7 witness: the table with one zero bloom word rejects the key "zzz"
(bytes 122, 122, 122). -/
theorem c7_bloom_miss_witness :
    tblBloom.table_lookup [122, 122, 122] 118 = some none := by
  exact c7_bloom_miss tblBloom [122, 122, 122] 118 0 (by decide) (by decide)
    (by decide)

/-- C10: because `bloom_shift` is 0 the two mask bits coincide — the mask is
the single power of two `2 ^ (h & 31)` — and for a table with bloom words the
filter answers true exactly when that one bit is set in bloom word
`(h / 32) mod n_bloom_words`. -/
theorem c10_bloom_single_bit (t : GvdbHashTable) (h w : Nat)
    (hn : 0 < t.header.n_bloom_words)
    (hw : t.get_bloom_word ((h / 32) % t.header.n_bloom_words) = some w) :
    (t.bloom_filterO h = some true ↔ w.testBit (h &&& 31)) ∧
    (1 <<< (h &&& 31)) ||| (1 <<< ((h >>> t.bloom_shift) &&& 31)) =
      2 ^ (h &&& 31) := by
  have hsr : h >>> t.bloom_shift = h := Nat.shiftRight_zero
  have hmask : (1 <<< (h &&& 31)) ||| (1 <<< ((h >>> t.bloom_shift) &&& 31)) =
      2 ^ (h &&& 31) := by
    rw [hsr, Nat.or_self, Nat.one_shiftLeft]
  refine ⟨?_, hmask⟩
  rw [GvdbHashTable.bloom_filterO, if_neg (by omega)]
  simp only [hw, Option.map_some', hmask, Option.some_inj]
  rw [beq_iff_eq, Nat.and_two_pow]
  cases hb : w.testBit (h &&& 31) with
  | false =>
    simp only [hb, Bool.toNat_false, Nat.zero_mul]
    constructor
    · intro h0
      have hpos : 0 < 2 ^ (h &&& 31) := Nat.pos_pow_of_pos _ (by omega)
      omega
    · intro hF
      exact Bool.noConfusion hF
  | true =>
    simp only [hb, Bool.toNat_true, Nat.one_mul]

/-- C10 witness: on the one-bloom-word table with word 0, hash value 5 tests
bit 5 of the zero word. -/
theorem c10_bloom_single_bit_witness :
    (tblBloom.bloom_filterO 5 = some true ↔ Nat.testBit 0 (5 &&& 31)) ∧
    (1 <<< (5 &&& 31)) ||| (1 <<< ((5 >>> tblBloom.bloom_shift) &&& 31)) =
      2 ^ (5 &&& 31) := by
  exact c10_bloom_single_bit tblBloom 5 0 (by decide) (by decide)


/-- Auxiliary: a successful slice read certifies its bounds and length. -/
theorem sliceOpt_ok (data : List Nat) (s e : Nat) (l : List Nat)
    (h : sliceOpt data s e = some l) :
    s ≤ e ∧ e ≤ data.length ∧ l.length = e - s := by
  rw [sliceOpt] at h
  by_cases hc : s ≤ e ∧ e ≤ data.length
  · rw [if_pos hc] at h
    injection h with h1
    subst h1
    refine ⟨hc.1, hc.2, ?_⟩
    simp only [List.length_map, List.length_take, List.length_drop]
    omega
  · rw [if_neg hc] at h
    exact Option.noConfusion h

/-- Auxiliary: a successful `deref_pointer` certifies the pointer bounds. -/
theorem deref_pointer_ok (t : GvdbHashTable) (ptr : GvdbPointer) (a : Nat)
    (l : List Nat) (h : t.deref_pointer ptr a = .ok l) :
    ptr.start ≤ ptr.end_ ∧ ptr.end_ ≤ t.data.length ∧
      l.length = ptr.end_ - ptr.start := by
  rw [GvdbHashTable.deref_pointer] at h
  by_cases h1 : ptr.start > ptr.end_
  · rw [if_pos h1] at h
    exact Except.noConfusion h
  · rw [if_neg h1] at h
    by_cases h2 : ptr.start &&& (a - 1) ≠ 0
    · rw [if_pos h2] at h
      exact Except.noConfusion h
    · rw [if_neg h2] at h
      cases hs : sliceOpt t.data ptr.start ptr.end_ with
      | none =>
        simp only [hs] at h
        exact Except.noConfusion h
      | some s =>
        simp only [hs] at h
        injection h with h3
        subst h3
        exact sliceOpt_ok _ _ _ _ hs

/-- Auxiliary: a table accepted by `for_bytes` keeps the input slice and
pointer, and its bucket region fits inside the dereferenced table slice,
which itself lies inside the data. -/
theorem for_bytes_readable (data : List Nat) (ptr : GvdbPointer)
    (t : GvdbHashTable) (h : GvdbHashTable.for_bytes data ptr = .ok t) :
    t.data = data ∧ t.table_ptr = ptr ∧
    t.hash_buckets_offset ≤ t.table_ptr.end_ - t.table_ptr.start ∧
    t.table_ptr.end_ ≤ t.data.length := by
  rw [GvdbHashTable.for_bytes] at h
  cases hh : GvdbHashTable.hash_header data ptr with
  | error e =>
    simp only [hh] at h
    exact Except.noConfusion h
  | ok header =>
    simp only [hh] at h
    cases hd : GvdbHashTable.deref_pointer ⟨data, ptr, header⟩ ptr 4 with
    | error e =>
      simp only [hd] at h
      exact Except.noConfusion h
    | ok table_data =>
      simp only [hd] at h
      split at h
      · exact Except.noConfusion h
      · split at h
        · exact Except.noConfusion h
        · next hoff _ =>
          injection h with h1
          subst h1
          push_neg at hoff
          obtain ⟨hse, hel, hlen2⟩ := deref_pointer_ok _ _ _ _ hd
          dsimp only at hoff hel hlen2 ⊢
          exact ⟨rfl, rfl, by omega, hel⟩

/-- Auxiliary: an in-range `get_u32` succeeds. -/
theorem get_u32_isSome (t : GvdbHashTable) (o : Nat)
    (h : o + 4 ≤ t.data.length) : ∃ wv, t.get_u32 o = some wv := by
  rw [GvdbHashTable.get_u32, readU32LE, if_pos h]
  exact ⟨_, rfl⟩

/-- Auxiliary: on a table whose bucket region fits inside the data, the
bloom filter never panics. -/
theorem bloom_filterO_isSome (t : GvdbHashTable)
    (hb : t.hash_buckets_offset ≤ t.table_ptr.end_ - t.table_ptr.start)
    (hlen : t.table_ptr.end_ ≤ t.data.length) (h : Nat) :
    ∃ b, t.bloom_filterO h = some b := by
  rw [GvdbHashTable.bloom_filterO]
  by_cases h0 : t.header.n_bloom_words = 0
  · rw [if_pos h0]
    exact ⟨true, rfl⟩
  · rw [if_neg h0]
    have hword : (h / 32) % t.header.n_bloom_words < t.header.n_bloom_words :=
      Nat.mod_lt _ (Nat.pos_of_ne_zero h0)
    have h2 : t.bloom_words_offset + t.header.n_bloom_words * 4 =
        t.hash_buckets_offset := rfl
    have h3 : t.table_ptr.end_ - t.table_ptr.start ≤ t.table_ptr.end_ :=
      Nat.sub_le _ _
    have hoff : t.bloom_words_offset +
        ((h / 32) % t.header.n_bloom_words) * 4 + 4 ≤ t.data.length := by
      omega
    obtain ⟨wv, hwv⟩ := get_u32_isSome t _ hoff
    have hgw : t.get_bloom_word ((h / 32) % t.header.n_bloom_words) = some wv := by
      rw [GvdbHashTable.get_bloom_word]
      exact hwv
    simp only [hgw, Option.map_some']
    exact ⟨_, rfl⟩

/-- Auxiliary: under a parent forest, `check_name` terminates — the fuelled
recursion never exhausts fuel exceeding the measure of the item's index. -/
theorem checkNameFuel_ne_none (t : GvdbHashTable) (d : Nat → Nat)
    (hd : ∀ i item, t.get_hash_item i = .ok item → item.parent ≠ 4294967295 →
      item.parent < t.n_hash_items → d item.parent < d i) :
    ∀ (fuel i : Nat) (item : GvdbHashItem) (key : List Nat),
      t.get_hash_item i = .ok item → d i < fuel →
      t.checkNameFuel fuel item key ≠ none := by
  intro fuel
  induction fuel with
  | zero =>
    intro i item key _ hlt
    omega
  | succ f ih =>
    intro i item key hgi hlt hcontra
    rw [GvdbHashTable.checkNameFuel] at hcontra
    cases hk : t.get_key item with
    | error e =>
      simp only [hk] at hcontra
      exact Option.noConfusion hcontra
    | ok this_key =>
      simp only [hk] at hcontra
      by_cases he : key = this_key
      · rw [if_pos he] at hcontra
        by_cases hroot : key.length = this_key.length ∧ item.parent = 4294967295
        · rw [if_pos hroot] at hcontra
          exact Option.noConfusion hcontra
        · rw [if_neg hroot] at hcontra
          by_cases hrec : item.parent < t.n_hash_items ∧ 0 < key.length
          · rw [if_pos hrec] at hcontra
            cases hp : t.get_hash_item item.parent with
            | error e =>
              simp only [hp] at hcontra
              exact Option.noConfusion hcontra
            | ok parent_item =>
              simp only [hp] at hcontra
              have hne : item.parent ≠ 4294967295 := by
                intro hEq
                exact hroot ⟨by rw [he], hEq⟩
              have hdec := hd i item hgi hne hrec.1
              exact ih item.parent parent_item key hp (by omega) hcontra
          · rw [if_neg hrec] at hcontra
            exact Option.noConfusion hcontra
      · rw [if_neg he] at hcontra
        exact Option.noConfusion hcontra

/-- Auxiliary: under a bounded parent forest, the bucket scan of
`table_lookup` never panics or diverges. -/
theorem lookupLoop_ne_none (t : GvdbHashTable) (key : List Nat) (typ hv : Nat)
    (d : Nat → Nat) (hbound : ∀ i, d i < t.n_hash_items + 1)
    (hd : ∀ i item, t.get_hash_item i = .ok item → item.parent ≠ 4294967295 →
      item.parent < t.n_hash_items → d item.parent < d i) :
    ∀ (remaining itemno : Nat),
      lookupLoop t key typ hv remaining itemno ≠ none := by
  intro remaining
  induction remaining with
  | zero =>
    intro itemno hcontra
    rw [lookupLoop] at hcontra
    exact Option.noConfusion hcontra
  | succ r ih =>
    intro itemno hcontra
    rw [lookupLoop] at hcontra
    cases hgi : t.get_hash_item itemno with
    | error e =>
      simp only [hgi] at hcontra
      exact Option.noConfusion hcontra
    | ok item =>
      simp only [hgi] at hcontra
      by_cases hh : hv = item.hash_value
      · rw [if_pos hh] at hcontra
        have hcn := checkNameFuel_ne_none t d hd (t.n_hash_items + 1) itemno
          item key hgi (hbound itemno)
        cases hc : t.check_name item key with
        | none => exact absurd hc hcn
        | some b =>
          simp only [hc] at hcontra
          cases b with
          | false => exact ih (itemno + 1) hcontra
          | true =>
            by_cases ht : item.typ = typ
            · rw [if_pos ht] at hcontra
              exact Option.noConfusion hcontra
            · rw [if_neg ht] at hcontra
              exact ih (itemno + 1) hcontra
      · rw [if_neg hh] at hcontra
        exact ih (itemno + 1) hcontra

/-- C9: on any table accepted by `for_bytes` whose parent links form a
forest, `get_value` is total — it returns an `Option` (no panic from the
bloom-word unwrap, no divergence of `check_name`), and by the shape of the
embedding every internal read failure, invalid UTF-8 key, or out-of-range or
misaligned value pointer surfaces as `None` rather than an error. -/
theorem c9_get_value_total (data : List Nat) (ptr : GvdbPointer)
    (t : GvdbHashTable) (key : List Nat)
    (hok : GvdbHashTable.for_bytes data ptr = .ok t)
    (hforest : ParentForest t) :
    ∃ r, t.get_value key = some r := by
  obtain ⟨d, hbound, hd⟩ := hforest
  obtain ⟨hdata, hptr, hbuck, hlen⟩ := for_bytes_readable data ptr t hok
  have hlook : t.table_lookup key 118 ≠ none := by
    intro hcontra
    rw [GvdbHashTable.table_lookup] at hcontra
    by_cases h0 : t.header.n_buckets = 0 ∨ t.n_hash_items = 0
    · rw [if_pos h0] at hcontra
      exact Option.noConfusion hcontra
    · rw [if_neg h0] at hcontra
      obtain ⟨b, hbf⟩ := bloom_filterO_isSome t hbuck hlen (djb_hash key)
      simp only [hbf] at hcontra
      cases b with
      | false => exact Option.noConfusion hcontra
      | true =>
        cases hgh : t.get_hash (djb_hash key % t.header.n_buckets) with
        | none =>
          simp only [hgh] at hcontra
          exact Option.noConfusion hcontra
        | some itemno =>
          simp only [hgh] at hcontra
          by_cases hlast : djb_hash key % t.header.n_buckets =
            t.header.n_buckets - 1
          · rw [if_pos hlast] at hcontra
            exact lookupLoop_ne_none t key 118 (djb_hash key) d hbound hd _ _
              hcontra
          · rw [if_neg hlast] at hcontra
            cases hgh2 : t.get_hash (djb_hash key % t.header.n_buckets + 1) with
            | none =>
              simp only [hgh2] at hcontra
              exact Option.noConfusion hcontra
            | some nxt =>
              simp only [hgh2] at hcontra
              exact lookupLoop_ne_none t key 118 (djb_hash key) d hbound hd _ _
                hcontra
  rw [GvdbHashTable.get_value]
  cases hl : t.table_lookup key 118 with
  | none => exact absurd hl hlook
  | some r =>
    cases r with
    | none => exact ⟨none, rfl⟩
    | some item => exact ⟨t.value_from_item item, rfl⟩

/-- C9 witness: the empty readable table (vacuously a forest) and an
arbitrary key. -/
theorem c9_get_value_total_witness :
    (tblEmptyT.get_value [97]).isSome = true := by
  have hfor : ParentForest tblEmptyT := by
    refine ⟨fun _ => 0, fun i => Nat.succ_pos _, ?_⟩
    intro i item hgi _ _
    have hno : tblEmptyT.get_hash_item i = .error .dataOffset := by
      rw [GvdbHashTable.get_hash_item]
      rw [if_neg]
      have h1 : tblEmptyT.hash_items_offset = 8 := by decide
      have h2 : tblEmptyT.data.length = 8 := by decide
      have h3 : sizeOfGvdbHashItem = 24 := by decide
      omega
    rw [hno] at hgi
    exact Except.noConfusion hgi
  obtain ⟨r, hr⟩ :=
    c9_get_value_total dataEmptyT ⟨0, 8⟩ tblEmptyT [97] (by decide) hfor
  rw [hr]
  rfl
